import Mathlib

/-!
# Verification of the fastnet core (interceptor chain, routers, worker pool)

Shallow embedding of the dispatch core of the `fastnet` TCP/WebSocket server
framework: the interceptor-chain builder (`chain_builder.go`), the message
handler and worker pool (`msg_handler.go`), the two router models
(`router.go`, shipped as `src/unnamed/part_000`), the per-frame request
object (`request.go`), the HTLV/CRC decoder (`src/unnamed/part_002`) and the
server start-up sequence (`server.go`, shipped inside
`src/xtimer/delay_func.go`).

Go maps are embedded as functions into `Option`; Go panics of registration
methods and of handlers are embedded as explicit error results; the byte and
integer types are embedded as `Nat`/`Int`, with two's-complement wrapping
made explicit where the code uses a fixed-width type (`int8` for the slices
request index).
-/

namespace Fastnet

/-! ## Interceptor chain (`chain_builder.go`, `server.go`)

An interceptor is observed by the order in which `Intercept` is invoked
along the chain.  We record for each interceptor a label and whether its
`Intercept` calls `chain.Proceed` (every interceptor in this code base does;
a user interceptor may short-circuit, §4.2 of the spec). -/

structure Interceptor where
  label : String
  proceeds : Bool
  deriving DecidableEq, Repr

/-- Modelled from the spec: the `Chain` type (`NewChain` / `Chain.Proceed`,
`chain.go`) is not under `src/`.  Per §4.2 the chain keeps an interceptor
list and an index; `Proceed` advances the index by one and invokes the next
interceptor, and returns a no-op response past the end.  The observable we
track is the sequence of interceptor labels in invocation order: an
interceptor records its label and, when its `Intercept` calls `Proceed`,
the rest of the chain runs after it. -/
def chainRun : List Interceptor → List String
  | [] => []
  | i :: rest => i.label :: (if i.proceeds then chainRun rest else [])

/-- `chainBuilder` (`chain_builder.go`): a head slot, a tail slot and a body
list of interceptors. -/
structure chainBuilder where
  head : Option Interceptor
  tail : Option Interceptor
  body : List Interceptor
  deriving DecidableEq, Repr

/-- `newChainBuilder` (`chain_builder.go`): empty body, no head, no tail. -/
def newChainBuilder : chainBuilder := ⟨none, none, []⟩

/-- `chainBuilder.Head`: set the head slot. -/
def chainBuilder.Head (b : chainBuilder) (i : Interceptor) : chainBuilder :=
  { b with head := some i }

/-- `chainBuilder.Tail`: set the tail slot. -/
def chainBuilder.Tail (b : chainBuilder) (i : Interceptor) : chainBuilder :=
  { b with tail := some i }

/-- `chainBuilder.AddInterceptor`: append to the body. -/
def chainBuilder.AddInterceptor (b : chainBuilder) (i : Interceptor) : chainBuilder :=
  { b with body := b.body ++ [i] }

/-- The interceptor list assembled by `chainBuilder.Execute`:
head (when set), then the body, then the tail (when set). -/
def chainBuilder.interceptors (b : chainBuilder) : List Interceptor :=
  b.head.toList ++ b.body ++ b.tail.toList

/-- `chainBuilder.Execute`: build the list and run the chain from index 0.
The observable is the invocation order of the interceptors. -/
def chainBuilder.Execute (b : chainBuilder) : List String :=
  chainRun b.interceptors

/-- The dispatcher tail interceptor (`MsgHandle.Intercept`,
`msg_handler.go`): it dispatches the request and then calls
`chain.Proceed`. -/
def dispatcherInterceptor : Interceptor := ⟨"dispatcher", true⟩

/-- `newMsgHandle` (`msg_handler.go`): the builder is created fresh and the
message handler itself is installed as the tail (`handle.builder.Tail(handle)`). -/
def newMsgHandleBuilder : chainBuilder :=
  newChainBuilder.Tail dispatcherInterceptor

/-- `Server.Start` (`server.go`), restricted to its effect on the
interceptor chain: when a decoder is configured it is added through
`s.msgHandler.AddInterceptor(s.decoder)`, i.e. appended to the chain body. -/
def serverStartChain (decoder : Option Interceptor) (b : chainBuilder) : chainBuilder :=
  match decoder with
  | some d => b.AddInterceptor d
  | none => b

/-! ## Worker-id assignment (`msg_handler.go`) -/

/-- `useWorker` (`msg_handler.go`) on the non-`Bind` path (`WorkerMode ≠
"Bind"`, or the `Bind` branch fell through on an empty free pool): return
`0` when the worker pool size is `0` (the Go field is `uint32`, so
`workerPoolSize <= 0` means `= 0`), else `connID mod workerPoolSize`.
`connID` is the `uint64` connection id; the result fits `uint32` because it
is smaller than `workerPoolSize`. -/
def useWorkerHash (workerPoolSize : Nat) (connID : Nat) : Nat :=
  if workerPoolSize = 0 then 0 else connID % workerPoolSize

/-! ## Router tables (`router.go` = `src/unnamed/part_000`, `msg_handler.go`)

The Go `panic` thrown by the registration methods is embedded as an explicit
error value paired with the post-state: a panic unwinds before any mutation,
so on the error outcome the returned table is the receiver unchanged.
Handlers are abstract (`α` for `RouterHandler`, `ρ` for `IRouter`). -/

variable {α ρ : Type}

/-- `RouterSlices` (`router.go`): the per-message-id table `Apis` and the
global handler list `Handlers` registered through `Use`. -/
structure RouterSlices (α : Type) where
  Apis : Nat → Option (List α)
  Handlers : List α

/-- `NewRouterSlices`: empty table, no globals. -/
def NewRouterSlices : RouterSlices α := ⟨fun _ => none, []⟩

/-- `RouterSlices.Use`: append to the global handler list. -/
def RouterSlices.Use (r : RouterSlices α) (handles : List α) : RouterSlices α :=
  { r with Handlers := r.Handlers ++ handles }

/-- `RouterSlices.AddHandler`: panic on a duplicate id (before any write),
else bind `Handlers ++ hs` — the merge of the globals snapshot and the
per-id handlers — to `msgId`. -/
def RouterSlices.AddHandler (r : RouterSlices α) (msgId : Nat) (hs : List α) :
    Option String × RouterSlices α :=
  match r.Apis msgId with
  | some _ => (some ("repeated api , msgId = " ++ toString msgId), r)
  | none =>
      let mergedHandlers := r.Handlers ++ hs
      (none, { r with Apis := fun m => if m = msgId then some mergedHandlers else r.Apis m })

/-- `RouterSlices.GetHandlers`: table lookup (the Go `(handlers, ok)` pair
is the `Option`). -/
def RouterSlices.GetHandlers (r : RouterSlices α) (msgId : Nat) : Option (List α) :=
  r.Apis msgId

/-- `GroupRouter` (`router.go`): an id range with its own prefixed handler
list; registrations go through to the parent `RouterSlices`. -/
structure GroupRouter (α : Type) where
  start : Nat
  stop : Nat
  handlers : List α

/-- `NewGroup`: record the range and the initial group handlers. -/
def NewGroup (start stop : Nat) (hs : List α) : GroupRouter α :=
  ⟨start, stop, hs⟩

/-- `GroupRouter.Use`: append to the group handler list. -/
def GroupRouter.Use (g : GroupRouter α) (hs : List α) : GroupRouter α :=
  { g with handlers := g.handlers ++ hs }

/-- `GroupRouter.AddHandler`: panic when `msgId` is outside `[start, stop]`,
else register `g.handlers ++ hs` on the parent router (which prepends its
own globals).  State-passing form: the parent router is an argument and the
updated parent is returned. -/
def GroupRouter.AddHandler (g : GroupRouter α) (r : RouterSlices α) (msgId : Nat)
    (hs : List α) : Option String × RouterSlices α :=
  if msgId < g.start ∨ g.stop < msgId then
    (some ("add s_router to group err in msgId:" ++ toString msgId), r)
  else
    r.AddHandler msgId (g.handlers ++ hs)

/-- `MsgHandle.AddRouter` (`msg_handler.go`): the classic table is a map
from message-id to `IRouter`; duplicate registration panics before the
write. -/
def MsgHandle.AddRouter (routers : Nat → Option ρ) (msgID : Nat) (router : ρ) :
    Option String × (Nat → Option ρ) :=
  match routers msgID with
  | some _ => (some ("repeated api , msgID = " ++ toString msgID), routers)
  | none => (none, fun m => if m = msgID then some router else routers m)

/-! ## HTLV/CRC decoder (`htlv_crc_decoder.go` = `src/unnamed/part_002`)

`CheckCRC` (`crc.go`) is not under `src/`, so the CRC verdict is a
parameter `checkCRC`; every statement below holds for an arbitrary checker.
Bytes are `Nat`s below 256. -/

/-- `HeaderSize` (`htlv_crc_decoder.go`). -/
def HeaderSize : Nat := 5

/-- The decoded `HtlvCrcDecoder` value filled in by `decode`. -/
structure HtlvCrcData where
  Head : Nat
  FunCode : Nat
  Length : Nat
  Body : List Nat
  Crc : List Nat
  Data : List Nat
  deriving DecidableEq, Repr

/-- `IMessage` as the decoder sees it: a message id slot and the frame
data. -/
structure IMessageS where
  msgId : Nat
  data : List Nat
  deriving DecidableEq, Repr

/-- `HtlvCrcDecoder.decode`: split the frame into header fields, body and
trailing 2-byte CRC, verify `CheckCRC(data[:size-2], crc)`, and return
`nil` (here `none`) on CRC failure.  Indexing `data[0] data[1] data[2]` and
the slices `data[3:size-2]`, `data[size-2:]` are embedded with
`getD`/`take`/`drop`; `Intercept` only calls `decode` on frames of at least
`HeaderSize = 5` bytes, where the two coincide with Go. -/
def HtlvCrcDecoder.decode (checkCRC : List Nat → List Nat → Bool) (data : List Nat) :
    Option HtlvCrcData :=
  let dataSize := data.length
  let crc := data.drop (dataSize - 2)
  let htlvData : HtlvCrcData :=
    { Head := data.getD 0 0
      FunCode := data.getD 1 0
      Length := data.getD 2 0
      Body := (data.take (dataSize - 2)).drop 3
      Crc := crc
      Data := data }
  if checkCRC (data.take (dataSize - 2)) crc then some htlvData else none

/-- Outcome of `HtlvCrcDecoder.Intercept`: either
`chain.ProceedWithIMessage(message, decoded)` — forwarding the (possibly
re-tagged) message and the decoded frame, `none` standing for Go `nil` in
either slot — or a runtime panic from dereferencing a nil
`*HtlvCrcDecoder`. -/
inductive HtlvInterceptResult where
  | proceed (message : Option IMessageS) (decoded : Option HtlvCrcData)
  | nilPanic
  deriving DecidableEq, Repr

/-- `HtlvCrcDecoder.Intercept`: forward untouched when the message is nil
or shorter than the 5-byte header; otherwise `decode` and then unconditionally
read `htlvData.FunCode` — when `decode` returned nil (CRC failure) this
dereferences a nil pointer and the goroutine panics. -/
def HtlvCrcDecoder.Intercept (checkCRC : List Nat → List Nat → Bool)
    (message : Option IMessageS) : HtlvInterceptResult :=
  match message with
  | none => .proceed none none
  | some m =>
      if m.data.length < HeaderSize then
        .proceed (some m) none
      else
        match HtlvCrcDecoder.decode checkCRC m.data with
        | none => .nilPanic
        | some htlvData => .proceed (some { m with msgId := htlvData.FunCode }) (some htlvData)

/-! ## Classic request execution (`request.go`)

`Request.Call` drives the `steps` cursor (`HandleStep`: `PreHandle = 0`,
`Handle = 1`, `PostHandle = 2`, `HandleOver = 3`) through the bound
router's phase methods.  A phase method is user code: it may log, call
`Abort`/`Goto` on the request (both only assign the `steps`/`needNext`
fields, which is what the embedded state exposes), or panic.  The
`stepLock` only guards field assignment and is irrelevant in this
sequential embedding.  The loop is embedded with explicit fuel;
`CallResult.diverged` marks fuel exhaustion, i.e. a `Call` that has not
returned within the given number of iterations. -/

/-- The classic-mode request state visible to phase methods: the step
cursor, the `needNext` flag and a log of output produced by the phases. -/
structure CReq where
  steps : Int
  needNext : Bool
  log : List String
  deriving DecidableEq, Repr

/-- A classic router: the three phase methods.  Each returns either the
updated request state or a panic value. -/
structure CRouter where
  PreHandle : CReq → Except String CReq
  Handle : CReq → Except String CReq
  PostHandle : CReq → Except String CReq

/-- `Request.next` (`request.go`): consume a pending `needNext = false`
(set by `Goto`) or advance the cursor. -/
def CReq.next (r : CReq) : CReq :=
  if r.needNext = false then { r with needNext := true }
  else { r with steps := r.steps + 1 }

/-- `Request.Goto`: set the cursor and suppress the following `next`. -/
def CReq.Goto (r : CReq) (step : Int) : CReq :=
  { r with steps := step, needNext := false }

/-- `Request.Abort` in classic mode: set the cursor to `HandleOver`. -/
def CReq.Abort (r : CReq) : CReq :=
  { r with steps := 3 }

/-- A router whose three phase methods only append one log line each and
leave the cursor alone — the "no Goto, no Abort, no panic" router of the
spec's scenario 4. -/
def logRouter (p h po : String) : CRouter where
  PreHandle := fun r => .ok { r with log := r.log ++ [p] }
  Handle := fun r => .ok { r with log := r.log ++ [h] }
  PostHandle := fun r => .ok { r with log := r.log ++ [po] }

/-- Outcome of a `Request.Call`. -/
inductive CallResult where
  | diverged
  | panicked (msg : String)
  | returned (r : CReq)
  deriving DecidableEq, Repr

/-- The `switch r.steps` body of `Request.Call`: invoke the phase method
selected by the cursor; any other cursor value falls through the switch
unchanged. -/
def callPhase (rt : CRouter) (r : CReq) : Except String CReq :=
  if r.steps = 0 then rt.PreHandle r
  else if r.steps = 1 then rt.Handle r
  else if r.steps = 2 then rt.PostHandle r
  else .ok r

/-- The `for r.steps < HandleOver` loop of `Request.Call`: run the selected
phase, then `r.next()`, until the cursor reaches `HandleOver = 3`. -/
def callLoop (rt : CRouter) : Nat → CReq → CallResult
  | 0, _ => .diverged
  | fuel + 1, r =>
      if r.steps < 3 then
        match callPhase rt r with
        | .error e => .panicked e
        | .ok r' => callLoop rt fuel r'.next
      else .returned r

/-- `Request.Call`: return immediately when no router is bound; otherwise
run the loop and, on normal exit, reset the cursor with
`r.steps = PreHandle`. -/
def Request.Call (router : Option CRouter) (fuel : Nat) (r : CReq) : CallResult :=
  match router with
  | none => .returned r
  | some rt =>
      match callLoop rt fuel r with
      | .returned r' => .returned { r' with steps := 0 }
      | out => out

/-! ## Slices request execution (`request.go`)

`RouterSlicesNext` walks the bound handler list with the `int8` index
field.  A slices handler is user code acting on the request; the behaviours
the claims quantify over are embedded as data: every handler records its
name, and it may additionally call `Abort` (which assigns
`index = int8(len(handlers))`) or panic. -/

/-- Two's-complement wrap of an `Int` into the Go `int8` range. -/
def int8 (x : Int) : Int := (x + 128) % 256 - 128

/-- A slices handler: its name is logged when it runs; `callsAbort` makes it
call `Request.Abort`; `panics` makes it panic after logging. -/
structure SHandler where
  name : String
  callsAbort : Bool
  panics : Option String
  deriving DecidableEq, Repr

/-- The slices part of the request state: the `int8` index and the trace of
handler invocations. -/
structure SReq where
  index : Int
  trace : List String
  deriving DecidableEq, Repr

/-- Run one slices handler: log its name, then apply its `Abort` effect
(`r.index = int8(len(r.handlers))`, `request.go`) or panic. -/
def runSHandler (numHandlers : Nat) (h : SHandler) (r : SReq) : Except String SReq :=
  let r := { r with trace := r.trace ++ [h.name] }
  match h.panics with
  | some e => .error e
  | none => .ok (if h.callsAbort then { r with index := int8 numHandlers } else r)

/-- Outcome of a slices dispatch. -/
inductive SRunResult where
  | diverged
  | panicked (msg : String)
  | done (r : SReq)
  deriving DecidableEq, Repr

/-- The `for r.index < int8(len(r.handlers))` loop of `RouterSlicesNext`:
invoke `handlers[r.index]`, then `r.index++` (with `int8` wrap).  An index
that is in range for the loop condition but not a valid list position (only
possible past 127 handlers) would be a Go bounds panic. -/
def routerSlicesLoop (handlers : List SHandler) : Nat → SReq → SRunResult
  | 0, _ => .diverged
  | fuel + 1, r =>
      if r.index < int8 handlers.length then
        match handlers.get? r.index.toNat with
        | none => .panicked "index out of range"
        | some h =>
            match runSHandler handlers.length h r with
            | .error e => .panicked e
            | .ok r' => routerSlicesLoop handlers fuel { r' with index := int8 (r'.index + 1) }
      else .done r

/-- `Request.RouterSlicesNext`: `r.index++`, then the loop. -/
def RouterSlicesNext (handlers : List SHandler) (fuel : Nat) (r : SReq) : SRunResult :=
  routerSlicesLoop handlers fuel { r with index := int8 (r.index + 1) }

/-! ## Worker loop and panic recovery (`msg_handler.go`)

`doMsgHandler`, `doMsgHandlerSlices` and `doFuncHandler` each wrap their
body in `defer recover`, turning a handler panic into an `xlog` line that
carries the worker id.  The observable of one invocation is the list of
`xlog` lines it produces; `none` marks a body that never returns
(fuel exhaustion of the embedded loops). -/

/-- The recover log line, e.g.
`"workerID: %d doMsgHandler panic: %v"`. -/
def panicLog (workerID : Nat) (what : String) (e : String) : String :=
  "workerID: " ++ toString workerID ++ " " ++ what ++ " panic: " ++ e

/-- `MsgHandle.doMsgHandler`: look up the classic router for the request's
message id (absent → error log, drop), bind it and `Call`; the deferred
`recover` converts a panic anywhere in the body into the worker-id log
line. -/
def doMsgHandler (routers : Nat → Option CRouter) (fuel workerID : Nat)
    (msgId : Nat) (r : CReq) : Option (List String) :=
  match routers msgId with
  | none => some ["api msgID = " ++ toString msgId ++ " is not FOUND!"]
  | some rt =>
      match Request.Call (some rt) fuel r with
      | .diverged => none
      | .panicked e => some [panicLog workerID "doMsgHandler" e]
      | .returned _ => some []

/-- `MsgHandle.doMsgHandlerSlices`: look up the slices handler list, bind it
and run `RouterSlicesNext` from index `-1`; same recover wrapper (its format
string also says `doMsgHandler`). -/
def doMsgHandlerSlices (slices : RouterSlices SHandler) (fuel workerID : Nat)
    (msgId : Nat) : Option (List String) :=
  match slices.GetHandlers msgId with
  | none => some ["api msgID = " ++ toString msgId ++ " is not FOUND!"]
  | some handlers =>
      match RouterSlicesNext handlers fuel ⟨-1, []⟩ with
      | .diverged => none
      | .panicked e => some [panicLog workerID "doMsgHandler" e]
      | .done _ => some []

/-- `MsgHandle.doFuncHandler`: run `request.CallFunc()` (embedded as its
outcome) under the same recover wrapper. -/
def doFuncHandler (workerID : Nat) (callFunc : Except String Unit) : List String :=
  match callFunc with
  | .error e => [panicLog workerID "doFuncRequest" e]
  | .ok _ => []

/-- One queued item, as discriminated by the `switch req := request.(type)`
in `StartOneWorker`: an internal function request or a message request. -/
inductive QItem where
  | funcReq (callFunc : Except String Unit)
  | msgReq (msgId : Nat) (r : CReq)

/-- The per-worker environment: the `RouterSlicesMode` flag picking the
dispatch model, and the two router tables. -/
structure WorkerEnv where
  routerSlicesMode : Bool
  routers : Nat → Option CRouter
  slices : RouterSlices SHandler

/-- The body of one `StartOneWorker` iteration: dispatch the item to
`doFuncHandler`, `doMsgHandler` or `doMsgHandlerSlices`. -/
def processOne (env : WorkerEnv) (fuel workerID : Nat) : QItem → Option (List String)
  | .funcReq f => some (doFuncHandler workerID f)
  | .msgReq msgId r =>
      if env.routerSlicesMode then doMsgHandlerSlices env.slices fuel workerID msgId
      else doMsgHandler env.routers fuel workerID msgId r

/-- `MsgHandle.StartOneWorker`, run on the (finite) list of requests sitting
in the worker's task queue: process them in order, concatenating the log
lines; `none` when some body never returns. -/
def StartOneWorker (env : WorkerEnv) (fuel workerID : Nat) : List QItem → Option (List String)
  | [] => some []
  | q :: rest => do
      let out ← processOne env fuel workerID q
      let outs ← StartOneWorker env fuel workerID rest
      pure (out ++ outs)

/-! ## Bind-mode worker-id pool (`msg_handler.go`, `server.go`)

In `Bind` mode `newMsgHandle` sets the pool size to `MaxConn` and fills
`freeWorkers` with `0 .. n-1`.  `useWorker` removes and returns an
arbitrary key of the free set (Go map iteration order is unspecified) —
falling through to the hash computation only when the set is empty — and
`freeWorker` puts the closing connection's worker id back.  The server's
accept loop (`ListenTcpConn`) only accepts while fewer than `MaxConn`
connections are live.  The reachable behaviour is the following transition
system over the free set and the live `(connId, workerId)` assignments. -/

/-- The Bind-mode scheduler state: the free worker-id set and the live
connection/worker assignments (most recent first). -/
structure WState where
  free : Finset Nat
  assigned : List (Nat × Nat)

/-- Live connection ids. -/
def WState.conns (s : WState) : List Nat := s.assigned.map Prod.fst

/-- Worker ids held by live connections. -/
def WState.wids (s : WState) : List Nat := s.assigned.map Prod.snd

/-- The state right after `newMsgHandle` in Bind mode with
`MaxConn = n`: all `n` worker ids free, no live connection. -/
def WInit (n : Nat) : WState := ⟨Finset.range n, []⟩

/-- One scheduler step with pool size `n`:
* `useWorkerFree` — accept a fresh connection `c` (the accept loop requires
  fewer than `n` live connections); `useWorker` picks some `w` from the
  non-empty free set, deletes it and assigns it to `c`;
* `useWorkerEmpty` — the same accept with an empty free set: the Bind loop
  body never runs and `useWorker` falls through to `c % n`;
* `freeWorker` — connection `c` (holding `w`) closes and its worker id is
  put back into the free set. -/
inductive WStep (n : Nat) : WState → WState → Prop
  | useWorkerFree (s : WState) (c w : Nat)
      (hlen : s.assigned.length < n) (hc : c ∉ s.conns) (hw : w ∈ s.free) :
      WStep n s ⟨s.free.erase w, (c, w) :: s.assigned⟩
  | useWorkerEmpty (s : WState) (c : Nat)
      (hlen : s.assigned.length < n) (hc : c ∉ s.conns) (hfree : s.free = ∅) :
      WStep n s ⟨s.free, (c, c % n) :: s.assigned⟩
  | freeWorker (s : WState) (c w : Nat) (hmem : (c, w) ∈ s.assigned) :
      WStep n s ⟨insert w s.free, s.assigned.eraseP (fun p => p.1 == c)⟩

/-- States reachable from the Bind-mode initial state. -/
inductive WReachable (n : Nat) : WState → Prop
  | init : WReachable n (WInit n)
  | step {s s' : WState} : WReachable n s → WStep n s s' → WReachable n s'

/-- The Bind-mode pool invariant: free and held worker ids partition a set
of size `n`; connection ids are unique; no worker id is held twice; no held
worker id is simultaneously free. -/
def WInv (n : Nat) (s : WState) : Prop :=
  s.free.card + s.assigned.length = n ∧
  s.conns.Nodup ∧
  s.wids.Nodup ∧
  ∀ w ∈ s.free, w ∉ s.wids

/-! ## Theorems -/

/-- Helper: a chain of interceptors that all call `Proceed` is invoked in
list order, each exactly once. -/
theorem chainRun_all_proceed (l : List Interceptor)
    (h : ∀ i ∈ l, i.proceeds = true) :
    chainRun l = l.map Interceptor.label := by
  induction l with
  | nil => rfl
  | cons i rest ih =>
      have hi : i.proceeds = true := h i (List.mem_cons_self i rest)
      simp only [chainRun, hi, if_pos, List.map_cons]
      exact congrArg _ (ih fun j hj => h j (List.mem_cons_of_mem i hj))

/-- Helper: folding `AddInterceptor` over a list appends the list to the
builder body and leaves head and tail untouched. -/
theorem foldl_AddInterceptor (l : List Interceptor) (b : chainBuilder) :
    List.foldl chainBuilder.AddInterceptor b l = { b with body := b.body ++ l } := by
  induction l generalizing b with
  | nil => simp
  | cons i rest ih =>
      simp only [List.foldl_cons, ih, chainBuilder.AddInterceptor, List.append_assoc,
        List.cons_append, List.nil_append]

/-- C1 counterexample: with one user interceptor registered before server
start, `Execute` invokes the user interceptor first and the decoder second —
the configured decoder is not the first interceptor invoked. -/
theorem user_interceptor_runs_before_decoder :
    (serverStartChain (some ⟨"decoder", true⟩)
        (newMsgHandleBuilder.AddInterceptor ⟨"user", true⟩)).Execute
      = ["user", "decoder", "dispatcher"] ∧
    (serverStartChain (some ⟨"decoder", true⟩)
        (newMsgHandleBuilder.AddInterceptor ⟨"user", true⟩)).Execute.head?
      ≠ some "decoder" := by
  constructor
  · rfl
  · intro h
    simp only [serverStartChain, chainBuilder.AddInterceptor, newMsgHandleBuilder,
      newChainBuilder, chainBuilder.Tail, chainBuilder.Execute, chainBuilder.interceptors,
      chainRun] at h
    exact absurd (Option.some.inj h) (by decide)

/-- C1 (amended): `Server.Start` appends the configured decoder to the
interceptor-chain body, so `Execute` invokes interceptors in registration
order — user interceptors registered before start, then the decoder, then
user interceptors registered after start, then the dispatcher tail.  The
decoder is therefore the first interceptor invoked exactly when no user
interceptor was registered before start. -/
theorem decoder_appended_to_chain_body (pre post : List Interceptor) (d : Interceptor)
    (hpre : ∀ i ∈ pre, i.proceeds = true) (hd : d.proceeds = true)
    (hpost : ∀ i ∈ post, i.proceeds = true) :
    (List.foldl chainBuilder.AddInterceptor
        (serverStartChain (some d)
          (List.foldl chainBuilder.AddInterceptor newMsgHandleBuilder pre))
        post).Execute
      = pre.map Interceptor.label ++ [d.label] ++ post.map Interceptor.label
          ++ ["dispatcher"] := by
  have hb : List.foldl chainBuilder.AddInterceptor newMsgHandleBuilder pre
      = { head := none, tail := some dispatcherInterceptor, body := pre } := by
    rw [foldl_AddInterceptor]; rfl
  have hall : ∀ i ∈ pre ++ [d] ++ post ++ [dispatcherInterceptor], i.proceeds = true := by
    intro i hi
    simp only [List.mem_append, List.mem_singleton] at hi
    rcases hi with ((hi | hi) | hi) | hi
    · exact hpre i hi
    · exact hi ▸ hd
    · exact hpost i hi
    · exact hi ▸ rfl
  rw [serverStartChain, hb, foldl_AddInterceptor]
  show chainRun ((none : Option Interceptor).toList ++ (pre ++ [d] ++ post)
    ++ (some dispatcherInterceptor).toList) = _
  simp only [Option.toList, List.nil_append, List.append_assoc] at hall ⊢
  rw [chainRun_all_proceed _ (by simpa using hall)]
  simp [dispatcherInterceptor]

/-- C1 witness: instantiating the amended statement at one pre-start user
interceptor and no post-start interceptor. -/
theorem decoder_appended_to_chain_body_witness :
    (List.foldl chainBuilder.AddInterceptor
        (serverStartChain (some ⟨"decoder", true⟩)
          (List.foldl chainBuilder.AddInterceptor newMsgHandleBuilder [⟨"user", true⟩]))
        []).Execute
      = [(⟨"user", true⟩ : Interceptor)].map Interceptor.label ++ ["decoder"]
          ++ ([] : List Interceptor).map Interceptor.label ++ ["dispatcher"] :=
  decoder_appended_to_chain_body [⟨"user", true⟩] [] ⟨"decoder", true⟩
    (by intro i hi; simp only [List.mem_singleton] at hi; rw [hi]) rfl (by intro i hi; cases hi)

/-- C2: for every frame of at least the 5-byte header handed to the
HTLV/CRC decoder's `Intercept`, if CRC verification fails then `decode`
returns `nil` and `Intercept` dereferences that nil pointer
(`htlvData.FunCode`) — the goroutine panics instead of reporting a
`MalformedFrame` error.  (This holds for an arbitrary CRC checker; the
`CheckCRC` implementation itself is outside `src/`.) -/
theorem crc_failure_causes_nil_panic (checkCRC : List Nat → List Nat → Bool)
    (m : IMessageS) (hlen : HeaderSize ≤ m.data.length)
    (hcrc : checkCRC (m.data.take (m.data.length - 2))
        (m.data.drop (m.data.length - 2)) = false) :
    HtlvCrcDecoder.Intercept checkCRC (some m) = .nilPanic := by
  have hnot : ¬ m.data.length < HeaderSize := by omega
  simp [HtlvCrcDecoder.Intercept, if_neg hnot, HtlvCrcDecoder.decode, hcrc]

/-- C2 witness: the concrete 5-byte frame `A2 10 00 FF FF` with a checker
that rejects it. -/
theorem crc_failure_causes_nil_panic_witness :
    HtlvCrcDecoder.Intercept (fun _ _ => false) (some ⟨0, [162, 16, 0, 255, 255]⟩)
      = .nilPanic :=
  crc_failure_causes_nil_panic (fun _ _ => false) ⟨0, [162, 16, 0, 255, 255]⟩
    (by decide) rfl

/-- C3: registering a message id that is already bound fails with the
duplicate-API panic on both routers — `RouterSlices.AddHandler` and
`MsgHandle.AddRouter` — and in both cases the returned table is exactly the
table before the call: the duplicate check precedes every write. -/
theorem duplicate_registration_fails {α ρ : Type} (r : RouterSlices α) (msgId : Nat)
    (hs : List α) (routers : Nat → Option ρ) (msgID : Nat) (router : ρ)
    (h1 : (r.Apis msgId).isSome = true) (h2 : (routers msgID).isSome = true) :
    r.AddHandler msgId hs = (some ("repeated api , msgId = " ++ toString msgId), r) ∧
    MsgHandle.AddRouter routers msgID router
      = (some ("repeated api , msgID = " ++ toString msgID), routers) := by
  constructor
  · unfold RouterSlices.AddHandler
    cases hx : r.Apis msgId with
    | none => rw [hx] at h1; cases h1
    | some v => rfl
  · unfold MsgHandle.AddRouter
    cases hx : routers msgID with
    | none => rw [hx] at h2; cases h2
    | some v => rfl

/-- C3 witness: a concrete second registration of message id 1 on each
router. -/
theorem duplicate_registration_fails_witness :
    RouterSlices.AddHandler ⟨fun m => if m = 1 then some [5] else none, []⟩ 1 [6]
      = (some ("repeated api , msgId = " ++ toString 1),
          ⟨fun m => if m = 1 then some [5] else none, []⟩) ∧
    MsgHandle.AddRouter (fun m => if m = 1 then some 9 else none) 1 7
      = (some ("repeated api , msgID = " ++ toString 1),
          fun m => if m = 1 then some 9 else none) :=
  duplicate_registration_fails ⟨fun m => if m = 1 then some [5] else none, []⟩ 1 [6]
    (fun m => if m = 1 then some (9 : Nat) else none) 1 7 rfl rfl

/-- C4: registering message id `M` through a group whose range contains `M`
binds exactly `globals ++ groupHandlers ++ perIdHandlers`, in that order,
and is observationally equal — error and resulting table — to calling
`AddHandler(M, groupHandlers ++ perIdHandlers)` directly on the parent
router. -/
theorem group_registration_composes {α : Type} (r : RouterSlices α) (g : GroupRouter α)
    (M : Nat) (H : List α) (hlo : g.start ≤ M) (hhi : M ≤ g.stop)
    (hfresh : r.Apis M = none) :
    (g.AddHandler r M H).2.GetHandlers M = some (r.Handlers ++ g.handlers ++ H) ∧
    g.AddHandler r M H = r.AddHandler M (g.handlers ++ H) := by
  have hrange : ¬ (M < g.start ∨ g.stop < M) := by omega
  have heq : g.AddHandler r M H = r.AddHandler M (g.handlers ++ H) := by
    unfold GroupRouter.AddHandler
    rw [if_neg hrange]
  refine ⟨?_, heq⟩
  rw [heq]
  unfold RouterSlices.AddHandler
  rw [hfresh]
  simp [RouterSlices.GetHandlers]

/-- C4 witness: group range `[2, 5]`, globals `[1]`, group handlers `[7]`,
per-id handlers `[9]` on message id 3. -/
theorem group_registration_composes_witness :
    ((GroupRouter.AddHandler ⟨2, 5, [7]⟩ ⟨fun _ => none, [1]⟩ 3 [9]).2.GetHandlers 3
        = some ([1] ++ [7] ++ [9])) ∧
    GroupRouter.AddHandler ⟨2, 5, [7]⟩ (⟨fun _ => none, [1]⟩ : RouterSlices Nat) 3 [9]
      = RouterSlices.AddHandler ⟨fun _ => none, [1]⟩ 3 ([7] ++ [9]) :=
  group_registration_composes ⟨fun _ => none, [1]⟩ ⟨2, 5, [7]⟩ 3 [9]
    (by decide) (by decide) rfl

/-- C6: with a non-empty worker pool and Hash affinity, `useWorker` assigns
connection id `c` the worker id `c mod workerPoolSize`; in particular with
pool size 4, connection ids 1, 2, 3, 4 land on workers 1, 2, 3, 0. -/
theorem hash_mode_worker_assignment (size connID : Nat) (h : 0 < size) :
    useWorkerHash size connID = connID % size ∧
    [1, 2, 3, 4].map (useWorkerHash 4) = [1, 2, 3, 0] := by
  constructor
  · unfold useWorkerHash
    rw [if_neg (by omega)]
  · decide

/-- C6 witness: pool size 4, connection id 1. -/
theorem hash_mode_worker_assignment_witness :
    useWorkerHash 4 1 = 1 % 4 ∧ [1, 2, 3, 4].map (useWorkerHash 4) = [1, 2, 3, 0] :=
  hash_mode_worker_assignment 4 1 (by decide)

/-- C8: on a request dispatched through the classic router, `Request.Call`
invokes the bound router's `PreHandle`, then `Handle`, then `PostHandle`,
each exactly once when no `Goto` or `Abort` is used: a router logging
`p`, `h`, `po` in those phases appends exactly `[p, h, po]` in that order,
and the call returns (with any sufficient loop fuel). -/
theorem classic_call_phase_order (p h po : String) (l : List String) (fuel : Nat) :
    Request.Call (some (logRouter p h po)) (fuel + 4) ⟨0, true, l⟩
      = .returned ⟨0, true, l ++ [p, h, po]⟩ := by
  show Request.Call (some (logRouter p h po)) (fuel + 1 + 1 + 1 + 1) ⟨0, true, l⟩ = _
  simp [Request.Call, callLoop, callPhase, CReq.next, logRouter]

/-- C8 witness: the spec's scenario 4 — logging "P", "H", "Po" in the three
phases yields the output "P", "H", "Po" in order for one message. -/
theorem classic_call_phase_order_witness :
    Request.Call (some (logRouter "P" "H" "Po")) (0 + 4) ⟨0, true, []⟩
      = .returned ⟨0, true, [] ++ ["P", "H", "Po"]⟩ :=
  classic_call_phase_order "P" "H" "Po" [] 0

/-- C10 counterexample: `Request.Call` on a request with no bound router
(`r.router == nil`) returns at once without touching the cursor; starting
it with the cursor at `Handle` returns with the cursor still at `Handle`,
not reset to `PreHandle`. -/
theorem call_without_router_keeps_cursor :
    Request.Call none 5 ⟨1, true, []⟩ = .returned ⟨1, true, []⟩ ∧
    (1 : Int) ≠ 0 :=
  ⟨rfl, by decide⟩

/-- C10 (amended): whenever `Request.Call` with a bound router returns —
whatever the phase methods did to the cursor, including `Abort` and `Goto`
— the returned request has its cursor reset to `PreHandle`; a `Call` with
no bound router returns immediately with the request unchanged. -/
theorem call_resets_cursor_to_prehandle :
    (∀ (rt : CRouter) (fuel : Nat) (r r' : CReq),
       Request.Call (some rt) fuel r = .returned r' → r'.steps = 0) ∧
    (∀ (fuel : Nat) (r : CReq), Request.Call none fuel r = .returned r) := by
  constructor
  · intro rt fuel r r' hcall
    simp only [Request.Call] at hcall
    cases hx : callLoop rt fuel r with
    | diverged => rw [hx] at hcall; cases hcall
    | panicked e => rw [hx] at hcall; cases hcall
    | returned x =>
        rw [hx] at hcall
        cases hcall
        rfl
  · intro fuel r
    rfl

/-- C10 witness: a run of the log-only router from `PreHandle` returns with
the cursor back at `PreHandle`. -/
theorem call_resets_cursor_to_prehandle_witness :
    CReq.steps ⟨0, true, ["P", "H", "Po"]⟩ = 0 :=
  call_resets_cursor_to_prehandle.1 (logRouter "P" "H" "Po") 4 ⟨0, true, []⟩
    ⟨0, true, ["P", "H", "Po"]⟩ rfl

/-- C9: panics raised inside handler invocations are caught at the
invocation boundary: `doMsgHandler`, `doMsgHandlerSlices` and
`doFuncHandler` each return normally with the single recover log line
carrying the worker id, and the worker loop (`StartOneWorker`) processes
the remaining queued frames exactly as it would have without the faulting
frame. -/
theorem worker_panic_recovery :
    (∀ (env : WorkerEnv) (fuel wid msgId : Nat) (r : CReq) (rt : CRouter) (e : String),
       env.routerSlicesMode = false → env.routers msgId = some rt →
       Request.Call (some rt) fuel r = .panicked e →
       processOne env fuel wid (.msgReq msgId r) = some [panicLog wid "doMsgHandler" e]) ∧
    (∀ (env : WorkerEnv) (fuel wid msgId : Nat) (r : CReq) (hs : List SHandler)
       (e : String),
       env.routerSlicesMode = true → env.slices.GetHandlers msgId = some hs →
       RouterSlicesNext hs fuel ⟨-1, []⟩ = .panicked e →
       processOne env fuel wid (.msgReq msgId r) = some [panicLog wid "doMsgHandler" e]) ∧
    (∀ (wid : Nat) (e : String),
       doFuncHandler wid (.error e) = [panicLog wid "doFuncRequest" e]) ∧
    (∀ (env : WorkerEnv) (fuel wid : Nat) (q : QItem) (out : List String)
       (rest : List QItem),
       processOne env fuel wid q = some out →
       StartOneWorker env fuel wid (q :: rest)
         = (StartOneWorker env fuel wid rest).map (fun outs => out ++ outs)) := by
  refine ⟨?_, ?_, ?_, ?_⟩
  · intro env fuel wid msgId r rt e hmode hrt hcall
    simp [processOne, hmode, doMsgHandler, hrt, hcall]
  · intro env fuel wid msgId r hs e hmode hhs hrun
    simp [processOne, hmode, doMsgHandlerSlices, hhs, hrun]
  · intro wid e
    rfl
  · intro env fuel wid q out rest hq
    simp only [StartOneWorker, hq, Option.bind_eq_bind, Option.some_bind]
    cases StartOneWorker env fuel wid rest with
    | none => rfl
    | some outs => rfl

/-- C9 witness: worker 0, a classic handler that panics with `"boom"` on
message id 1, followed by a healthy function request: the panic is logged
with the worker id and the queue keeps draining. -/
theorem worker_panic_recovery_witness :
    processOne ⟨false, fun m => if m = 1 then some ⟨fun _ => .error "boom",
        fun r => .ok r, fun r => .ok r⟩ else none, NewRouterSlices⟩ 1 0
        (.msgReq 1 ⟨0, true, []⟩)
      = some [panicLog 0 "doMsgHandler" "boom"] ∧
    StartOneWorker ⟨false, fun m => if m = 1 then some ⟨fun _ => .error "boom",
        fun r => .ok r, fun r => .ok r⟩ else none, NewRouterSlices⟩ 1 0
        [.msgReq 1 ⟨0, true, []⟩, .funcReq (.ok ())]
      = (StartOneWorker ⟨false, fun m => if m = 1 then some ⟨fun _ => .error "boom",
          fun r => .ok r, fun r => .ok r⟩ else none, NewRouterSlices⟩ 1 0
          [.funcReq (.ok ())]).map
          (fun outs => [panicLog 0 "doMsgHandler" "boom"] ++ outs) ∧
    doFuncHandler 0 (.error "bang") = [panicLog 0 "doFuncRequest" "bang"] :=
  ⟨worker_panic_recovery.1 _ 1 0 1 ⟨0, true, []⟩ _ "boom" rfl rfl rfl,
   worker_panic_recovery.2.2.2 _ 1 0 _ _ _
     (worker_panic_recovery.1 _ 1 0 1 ⟨0, true, []⟩ _ "boom" rfl rfl rfl),
   worker_panic_recovery.2.2.1 0 "bang"⟩

/-- Helper: `int8` wrapping is the identity inside the `int8` range. -/
theorem int8_eq_self {x : Int} (h1 : -128 ≤ x) (h2 : x ≤ 127) : int8 x = x := by
  unfold int8
  omega

/-- Helper: the `RouterSlicesNext` loop over handlers that neither abort
nor panic runs every remaining handler once, in list order. -/
theorem routerSlicesLoop_plain (hs : List SHandler) (hlen : hs.length ≤ 127) :
    ∀ (fuel i : Nat) (t : List String), i ≤ hs.length → hs.length - i < fuel →
      (∀ h ∈ hs.drop i, h.callsAbort = false ∧ h.panics = none) →
      routerSlicesLoop hs fuel ⟨(i : Int), t⟩
        = .done ⟨(hs.length : Int), t ++ (hs.drop i).map SHandler.name⟩ := by
  intro fuel
  induction fuel with
  | zero => intro i t h1 h2 h3; omega
  | succ fuel ih =>
      intro i t hile hfuel hplain
      have hint8 : int8 hs.length = hs.length :=
        int8_eq_self (by omega) (by exact_mod_cast hlen)
      by_cases hcase : i < hs.length
      · have hcond : ((i : Nat) : Int) < int8 hs.length := by
          rw [hint8]; exact_mod_cast hcase
        have hdrop : hs.drop i = hs[i] :: hs.drop (i + 1) :=
          List.drop_eq_getElem_cons hcase
        have hget : hs.get? ((i : Int)).toNat = some hs[i] := by
          rw [Int.toNat_natCast, List.get?_eq_getElem?]
          exact List.getElem?_eq_getElem hcase
        have hi : hs[i].callsAbort = false ∧ hs[i].panics = none := by
          apply hplain
          rw [hdrop]
          exact List.mem_cons_self _ _
        have hrun : runSHandler hs.length hs[i] ⟨(i : Int), t⟩
            = .ok ⟨(i : Int), t ++ [hs[i].name]⟩ := by
          simp [runSHandler, hi.1, hi.2]
        have hnext : int8 ((i : Int) + 1) = ((i + 1 : Nat) : Int) := by
          rw [int8_eq_self (by omega) (by omega)]
          push_cast
          ring
        simp only [routerSlicesLoop, if_pos hcond, hget, hrun, hnext]
        rw [ih (i + 1) (t ++ [hs[i].name]) (by omega) (by omega)
          (fun h hm => hplain h (by rw [hdrop]; exact List.mem_cons_of_mem _ hm))]
        have hdropmap : List.drop i (List.map SHandler.name hs)
            = hs[i].name :: List.drop (i + 1) (List.map SHandler.name hs) := by
          rw [List.drop_eq_getElem_cons (by simpa using hcase)]
          simp
        simp [List.append_assoc, hdropmap]
      · have hi : i = hs.length := by omega
        subst hi
        have hcond : ¬ (((hs.length : Nat) : Int) < int8 hs.length) := by
          rw [hint8]
          omega
        simp only [routerSlicesLoop, if_neg hcond]
        rw [List.drop_length]
        simp

/-- Helper: the `RouterSlicesNext` loop over a non-aborting prefix followed
by an aborting handler runs the prefix and the aborting handler, then
stops — the handlers after it are never invoked. -/
theorem routerSlicesLoop_abort (pre post : List SHandler) (a : SHandler)
    (hlen : (pre ++ a :: post).length ≤ 126)
    (ha : a.callsAbort = true) (hap : a.panics = none) :
    ∀ (fuel i : Nat) (t : List String), i ≤ pre.length → pre.length - i + 1 < fuel →
      (∀ h ∈ pre.drop i, h.callsAbort = false ∧ h.panics = none) →
      routerSlicesLoop (pre ++ a :: post) fuel ⟨(i : Int), t⟩
        = .done ⟨((pre ++ a :: post).length : Int) + 1,
            t ++ (pre.drop i).map SHandler.name ++ [a.name]⟩ := by
  have hlenval : (pre ++ a :: post).length = pre.length + post.length + 1 := by
    rw [List.length_append, List.length_cons]
    omega
  intro fuel
  induction fuel with
  | zero => intro i t h1 h2 h3; omega
  | succ fuel ih =>
      intro i t hile hfuel hplain
      have hlen127 : ((pre ++ a :: post).length : Int) ≤ 127 := by
        exact_mod_cast (by omega : (pre ++ a :: post).length ≤ 127)
      have hint8 : int8 (pre ++ a :: post).length = (pre ++ a :: post).length :=
        int8_eq_self (by omega) hlen127
      by_cases hcase : i < pre.length
      · have hcond : ((i : Nat) : Int) < int8 (pre ++ a :: post).length := by
          rw [hint8]
          exact_mod_cast (by omega : i < (pre ++ a :: post).length)
        have hprei : i < pre.length := hcase
        have hdrop : pre.drop i = pre[i] :: pre.drop (i + 1) :=
          List.drop_eq_getElem_cons hcase
        have hget : (pre ++ a :: post).get? ((i : Int)).toNat = some pre[i] := by
          rw [Int.toNat_natCast, List.get?_eq_getElem?, List.getElem?_append_left hcase]
          exact List.getElem?_eq_getElem hcase
        have hi : pre[i].callsAbort = false ∧ pre[i].panics = none := by
          apply hplain
          rw [hdrop]
          exact List.mem_cons_self _ _
        have hrun : runSHandler (pre ++ a :: post).length pre[i] ⟨(i : Int), t⟩
            = .ok ⟨(i : Int), t ++ [pre[i].name]⟩ := by
          simp [runSHandler, hi.1, hi.2]
        have hnext : int8 ((i : Int) + 1) = ((i + 1 : Nat) : Int) := by
          rw [int8_eq_self (by omega) (by omega)]
          push_cast
          ring
        simp only [routerSlicesLoop, if_pos hcond, hget, hrun, hnext]
        rw [ih (i + 1) (t ++ [pre[i].name]) (by omega) (by omega)
          (fun h hm => hplain h (by rw [hdrop]; exact List.mem_cons_of_mem _ hm))]
        have hdropmap : List.drop i (List.map SHandler.name pre)
            = pre[i].name :: List.drop (i + 1) (List.map SHandler.name pre) := by
          rw [List.drop_eq_getElem_cons (by simpa using hcase)]
          simp
        simp [List.append_assoc, hdropmap]
      · have hi : i = pre.length := by omega
        subst hi
        have hcond : ((pre.length : Nat) : Int) < int8 (pre ++ a :: post).length := by
          rw [hint8]
          exact_mod_cast (by omega : pre.length < (pre ++ a :: post).length)
        have hget : (pre ++ a :: post).get? ((pre.length : Int)).toNat = some a := by
          rw [Int.toNat_natCast, List.get?_eq_getElem?,
            List.getElem?_append_right (Nat.le_refl _)]
          simp
        have hrun : runSHandler (pre ++ a :: post).length a ⟨(pre.length : Int), t⟩
            = .ok ⟨int8 (pre ++ a :: post).length, t ++ [a.name]⟩ := by
          simp [runSHandler, ha, hap]
        have hnext : int8 (int8 (pre ++ a :: post).length + 1)
            = ((pre ++ a :: post).length : Int) + 1 := by
          rw [hint8, int8_eq_self (by omega) (by omega)]
        obtain ⟨f, rfl⟩ : ∃ f, fuel = f + 1 := ⟨fuel - 1, by omega⟩
        simp only [routerSlicesLoop, if_pos hcond, hget, hrun, hnext]
        have hstop : ¬ (((pre ++ a :: post).length : Int) + 1
            < int8 (pre ++ a :: post).length) := by
          rw [hint8]
          omega
        simp only [routerSlicesLoop, if_neg hstop]
        rw [List.drop_length]
        simp

/-- C7: in slices-router dispatch from a fresh request (index `-1`),
handlers run in list order even though none of them calls next — every
non-aborting, non-panicking handler in the bound list runs exactly once, in
order — and a handler that calls `Abort` stops the walk: with a
non-aborting prefix before it, the trace is exactly the prefix followed by
the aborting handler, and no later handler (e.g. `helloHandle` after an
aborting `auth`) is ever invoked. -/
theorem slices_dispatch_order_and_abort :
    (∀ (hs : List SHandler) (fuel : Nat),
       (∀ h ∈ hs, h.callsAbort = false ∧ h.panics = none) →
       hs.length ≤ 127 → hs.length < fuel →
       RouterSlicesNext hs fuel ⟨-1, []⟩
         = .done ⟨(hs.length : Int), hs.map SHandler.name⟩) ∧
    (∀ (pre post : List SHandler) (a : SHandler) (fuel : Nat),
       (∀ h ∈ pre, h.callsAbort = false ∧ h.panics = none) →
       a.callsAbort = true → a.panics = none →
       (pre ++ a :: post).length ≤ 126 → pre.length + 1 < fuel →
       RouterSlicesNext (pre ++ a :: post) fuel ⟨-1, []⟩
         = .done ⟨((pre ++ a :: post).length : Int) + 1,
             pre.map SHandler.name ++ [a.name]⟩) := by
  have hstart : (int8 (-1 + 1)) = ((0 : Nat) : Int) := by
    rw [int8_eq_self (by omega) (by omega)]
    rfl
  constructor
  · intro hs fuel hplain hlen hfuel
    show routerSlicesLoop hs fuel ⟨int8 (-1 + 1), []⟩ = _
    rw [hstart, routerSlicesLoop_plain hs hlen fuel 0 [] (by omega) (by omega)
      (by simpa using hplain)]
    simp
  · intro pre post a fuel hplain ha hap hlen hfuel
    show routerSlicesLoop (pre ++ a :: post) fuel ⟨int8 (-1 + 1), []⟩ = _
    rw [hstart, routerSlicesLoop_abort pre post a hlen ha hap fuel 0 [] (by omega)
      (by omega) (by simpa using hplain)]
    simp

/-- C7 witness: `auth` (which aborts) registered before `helloHandle` on the
bound list — `auth` runs, `helloHandle` does not; and a single plain
handler list runs in order. -/
theorem slices_dispatch_order_and_abort_witness :
    RouterSlicesNext (([] : List SHandler)
        ++ (⟨"auth", true, none⟩ : SHandler) :: [⟨"helloHandle", false, none⟩]) 3 ⟨-1, []⟩
      = .done ⟨((([] : List SHandler)
            ++ (⟨"auth", true, none⟩ : SHandler) :: [⟨"helloHandle", false, none⟩]).length : Int) + 1,
          ([] : List SHandler).map SHandler.name ++ ["auth"]⟩ ∧
    RouterSlicesNext [(⟨"h1", false, none⟩ : SHandler)] 2 ⟨-1, []⟩
      = .done ⟨(([(⟨"h1", false, none⟩ : SHandler)]).length : Int),
          [(⟨"h1", false, none⟩ : SHandler)].map SHandler.name⟩ :=
  ⟨slices_dispatch_order_and_abort.2 [] [⟨"helloHandle", false, none⟩] ⟨"auth", true, none⟩ 3
      (by intro h hm; cases hm) rfl rfl (by decide) (by decide),
   slices_dispatch_order_and_abort.1 [⟨"h1", false, none⟩] 2
      (by intro h hm; simp only [List.mem_singleton] at hm; rw [hm]; exact ⟨rfl, rfl⟩)
      (by decide) (by decide)⟩

/-- Helper: in an assignment list with distinct connection ids, a
connection determines its worker id. -/
theorem snd_eq_of_fst_nodup {l : List (Nat × Nat)}
    (hnd : (l.map Prod.fst).Nodup) {c w w' : Nat}
    (h1 : (c, w) ∈ l) (h2 : (c, w') ∈ l) : w = w' := by
  induction l with
  | nil => cases h1
  | cons p rest ih =>
      simp only [List.map_cons, List.nodup_cons] at hnd
      rcases List.mem_cons.mp h1 with h1 | h1
      · rcases List.mem_cons.mp h2 with h2 | h2
        · rw [← h1] at h2
          exact (Prod.mk.injEq _ _ _ _ ▸ h2).2.symm
        · exfalso
          apply hnd.1
          rw [← h1]
          simpa using List.mem_map_of_mem Prod.fst h2
      · rcases List.mem_cons.mp h2 with h2 | h2
        · exfalso
          apply hnd.1
          rw [← h2]
          simpa using List.mem_map_of_mem Prod.fst h1
        · exact ih hnd.2 h1 h2

/-- Helper: every Bind-mode scheduler step preserves the pool invariant. -/
theorem winv_step {n : Nat} {s s' : WState} (hinv : WInv n s) (hstep : WStep n s s') :
    WInv n s' := by
  obtain ⟨hcard, hconns, hwids, hdisj⟩ := hinv
  cases hstep with
  | useWorkerFree c w hlen hc hw =>
      refine ⟨?_, ?_, ?_, ?_⟩
      · show (s.free.erase w).card + ((c, w) :: s.assigned).length = n
        rw [Finset.card_erase_of_mem hw, List.length_cons]
        have hpos : 0 < s.free.card := Finset.card_pos.mpr ⟨w, hw⟩
        omega
      · show (((c, w) :: s.assigned).map Prod.fst).Nodup
        rw [List.map_cons, List.nodup_cons]
        exact ⟨hc, hconns⟩
      · show (((c, w) :: s.assigned).map Prod.snd).Nodup
        rw [List.map_cons, List.nodup_cons]
        exact ⟨hdisj w hw, hwids⟩
      · intro w' hw'
        rw [Finset.mem_erase] at hw'
        show w' ∉ ((c, w) :: s.assigned).map Prod.snd
        rw [List.map_cons, List.mem_cons]
        rintro (h | h)
        · exact hw'.1 h
        · exact hdisj w' hw'.2 h
  | useWorkerEmpty c hlen hc hfree =>
      exfalso
      rw [hfree] at hcard
      simp only [Finset.card_empty] at hcard
      omega
  | freeWorker c w hmem =>
      obtain ⟨a, l₁, l₂, hl₁, hpa, hsplit, herase⟩ :=
        List.exists_of_eraseP (p := fun q => q.1 == c) hmem (by simp)
      have hac : a.1 = c := by simpa using hpa
      have hamem : a ∈ s.assigned := by
        rw [hsplit]
        exact List.mem_append_right _ (List.mem_cons_self _ _)
      have haw : a = (c, w) := by
        have h2' : (c, a.2) ∈ s.assigned := by
          rw [← hac, Prod.mk.eta]
          exact hamem
        exact Prod.ext hac (snd_eq_of_fst_nodup hconns h2' hmem)
      rw [haw] at hsplit
      have hwmem : w ∈ s.wids := List.mem_map_of_mem Prod.snd hmem
      have hwfree : w ∉ s.free := fun hwf => hdisj w hwf hwmem
      have hlens : s.assigned.length = l₁.length + l₂.length + 1 := by
        rw [hsplit, List.length_append, List.length_cons]
        omega
      have hsub : (l₁ ++ l₂).Sublist s.assigned := by
        rw [hsplit]
        exact (List.sublist_cons_self (c, w) l₂).append_left l₁
      have hwmid : (s.assigned.map Prod.snd)
          = l₁.map Prod.snd ++ w :: l₂.map Prod.snd := by
        rw [hsplit]
        simp
      have hwnodup := hwids
      simp only [WState.wids] at hwnodup
      rw [hwmid, List.nodup_middle, List.nodup_cons, ← List.map_append] at hwnodup
      refine ⟨?_, ?_, ?_, ?_⟩
      · show (insert w s.free).card + (s.assigned.eraseP (fun p => p.1 == c)).length = n
        rw [Finset.card_insert_of_not_mem hwfree, herase]
        rw [List.length_append]
        omega
      · show ((s.assigned.eraseP (fun p => p.1 == c)).map Prod.fst).Nodup
        rw [herase]
        exact ((hsub.map Prod.fst).nodup hconns)
      · show ((s.assigned.eraseP (fun p => p.1 == c)).map Prod.snd).Nodup
        rw [herase]
        exact hwnodup.2
      · intro w' hw'
        rw [Finset.mem_insert] at hw'
        show w' ∉ (s.assigned.eraseP (fun p => p.1 == c)).map Prod.snd
        rw [herase]
        rcases hw' with rfl | hw'
        · exact hwnodup.1
        · intro hmem'
          exact hdisj w' hw' ((hsub.map Prod.snd).mem hmem')

/-- Helper: every reachable Bind-mode state satisfies the pool invariant. -/
theorem wreachable_winv (n : Nat) (s : WState) (h : WReachable n s) : WInv n s := by
  induction h with
  | init =>
      refine ⟨?_, ?_, ?_, ?_⟩
      · simp [WInit]
      · simp [WInit, WState.conns]
      · simp [WInit, WState.wids]
      · intro w _ hmem
        simp [WInit, WState.wids] at hmem
  | step _ hstep ih => exact winv_step ih hstep

/-- C5: in Bind mode, along every reachable sequence of accepts
(`useWorker`) and closes (`freeWorker`), at most one live connection holds
any given worker id — the held worker ids are pairwise distinct — and a
worker id released by `freeWorker` lands in the free set and can be claimed
by a later `useWorker` for any fresh connection. -/
theorem bind_mode_worker_exclusive (n : Nat) (s : WState) (h : WReachable n s) :
    s.wids.Nodup ∧
    ∀ c w, (c, w) ∈ s.assigned →
      ∃ s', WStep n s s' ∧ WReachable n s' ∧ w ∈ s'.free ∧
        ∀ c', c' ∉ s'.conns →
          ∃ s'', WStep n s' s'' ∧ (c', w) ∈ s''.assigned := by
  have hinv := wreachable_winv n s h
  refine ⟨hinv.2.2.1, ?_⟩
  intro c w hmem
  refine ⟨⟨insert w s.free, s.assigned.eraseP (fun p => p.1 == c)⟩,
    WStep.freeWorker s c w hmem,
    WReachable.step h (WStep.freeWorker s c w hmem),
    Finset.mem_insert_self w s.free, ?_⟩
  intro c' hc'
  have hlen : (s.assigned.eraseP (fun p => p.1 == c)).length < n := by
    have hlep : (s.assigned.eraseP (fun p => p.1 == c)).length
        = s.assigned.length - 1 :=
      List.length_eraseP_of_mem hmem (by simp)
    have hpos : 0 < s.assigned.length := List.length_pos.mpr
      (List.ne_nil_of_mem hmem)
    have hcard := hinv.1
    omega
  exact ⟨⟨(insert w s.free).erase w, (c', w) :: s.assigned.eraseP (fun p => p.1 == c)⟩,
    WStep.useWorkerFree _ c' w hlen hc' (Finset.mem_insert_self w s.free),
    List.mem_cons_self _ _⟩

/-- C5 witness: pool of size 1; connection 7 accepted and holding worker 0
is a reachable state with distinct held worker ids, and closing it makes
worker 0 claimable by a fresh connection. -/
theorem bind_mode_worker_exclusive_witness :
    (WState.wids ⟨(WInit 1).free.erase 0, [(7, 0)]⟩).Nodup ∧
    (∃ s', WStep 1 ⟨(WInit 1).free.erase 0, [(7, 0)]⟩ s' ∧
      WReachable 1 s' ∧ (0 : Nat) ∈ s'.free ∧
      ∀ c', c' ∉ s'.conns →
        ∃ s'', WStep 1 s' s'' ∧ (c', 0) ∈ s''.assigned) := by
  have h := bind_mode_worker_exclusive 1 ⟨(WInit 1).free.erase 0, [(7, 0)]⟩
    (WReachable.step WReachable.init
      (WStep.useWorkerFree (WInit 1) 7 0 (by decide) (by decide) (by decide)))
  exact ⟨h.1, h.2 7 0 (List.mem_cons_self _ _)⟩

end Fastnet
